import Mathlib

/-!
# Verification of the vibrato-viewer analysis and rendering core

Shallow embedding of the analysis/rendering core of the vibrato-viewer
repository, and proofs of the specification's claims about it.

Numeric values carried by the program (times, pitch deviations, window
sizes) are modelled as rationals; the one place the source takes a real
square root (Pearson correlation) is modelled with Real.sqrt over the
rational sums.

Sources embedded here:
 - App.tsx, generateMockData (the in-repository extrema scan);
 - App.tsx, seekTo / handleProgressDrag / handleProgressDragEnd and the
   requestAnimationFrame updateTime effect (playback vs drag);
 - App.tsx, analyzeAudio (error handling of an analysis run);
 - ScrollingVibratoGraph, the main rendering effect (visible window,
   index resolution, render skip);
 - ScrollingVibratoGraph, calculateCorrelation.
-/

/-- The result object served by the analysis backend and consumed by the
renderer; field for field the AnalysisData interface of App.tsx. -/
structure AnalysisData where
  times : List ℚ
  pitchDeviation : List ℚ
  amplitudeDeviation : List ℚ
  amplitude : List ℚ
  peaks : List ℕ
  troughs : List ℕ
  oscillations : ℕ
deriving DecidableEq, Repr

/-- JavaScript Array.prototype.findIndex: index of the first element
satisfying the predicate; the source's sentinel -1 is modelled as none. -/
def jsFindIndex (p : ℚ → Bool) : List ℚ → Option ℕ
  | [] => none
  | a :: l => if p a then some 0 else (jsFindIndex p l).map (· + 1)

/-- Visible time range of the scrolling window, from the main rendering
effect: timeEnd is currentTime and timeStart is max(0, currentTime -
windowSize). -/
def visibleWindow (currentTime windowSize : ℚ) : ℚ × ℚ :=
  (max 0 (currentTime - windowSize), currentTime)

/-- Index of the first frame inside the window: findIndex over times with
the predicate t >= timeStart. -/
def startIdxOf (times : List ℚ) (currentTime windowSize : ℚ) : Option ℕ :=
  jsFindIndex (fun t => decide ((visibleWindow currentTime windowSize).1 ≤ t)) times

/-- Index of the first frame at or past the window end: findIndex over
times with the predicate t >= timeEnd. -/
def endIdxOf (times : List ℚ) (currentTime : ℚ) : Option ℕ :=
  jsFindIndex (fun t => decide ((visibleWindow currentTime 0).2 ≤ t)) times

/-- What one tick of the main rendering effect draws for the pitch panel:
the resolved index range and the (time, pitchDeviation) points of the
visible slice, i running from startIdx while i <= endIdx and i < length. -/
structure DrawData where
  startIdx : ℕ
  endIdx : ℕ
  pitchPoints : List (ℚ × ℚ)
deriving DecidableEq, Repr

/-- Points the pitch-panel loop visits: indices i with startIdx <= i,
i <= endIdx and i < times.length, in increasing order. -/
def visiblePitchPoints (data : AnalysisData) (s e : ℕ) : List (ℚ × ℚ) :=
  ((List.range data.times.length).filter (fun i => s ≤ i ∧ i ≤ e)).map
    (fun i => (data.times.getD i 0, data.pitchDeviation.getD i 0))

/-- One tick of the main rendering effect of ScrollingVibratoGraph: bail
out on an empty series, resolve startIdx and endIdx by findIndex, and if
either is -1 skip the draw (none); otherwise produce the draw data. -/
def renderTick (data : AnalysisData) (currentTime windowSize : ℚ) :
    Option DrawData :=
  if data.times.length = 0 then none
  else
    match startIdxOf data.times currentTime windowSize,
          endIdxOf data.times currentTime with
    | some s, some e => some ⟨s, e, visiblePitchPoints data s e⟩
    | some _, none => none
    | none, _ => none

/-- JavaScript strict greater-than where a missing array element reads as
undefined: any comparison against undefined is false. -/
def jsGt : Option ℚ → Option ℚ → Bool
  | some a, some b => decide (b < a)
  | _, _ => false

/-- JavaScript strict less-than with the same undefined rule. -/
def jsLt : Option ℚ → Option ℚ → Bool
  | some a, some b => decide (a < b)
  | _, _ => false

/-- JavaScript test Math.abs(v) > 10 where a missing element reads as
undefined (false). -/
def jsAbsGt10 : Option ℚ → Bool
  | some a => decide (10 < |a|)
  | none => false

/-- The portion of the pitchDeviation array that has been pushed when the
generation loop of generateMockData reaches the extremum check at index i:
the loop body pushes entry i and only then runs the check, so exactly the
entries 0..i exist. -/
def pushedPrefix (pd : List ℚ) (i : ℕ) : List ℚ :=
  pd.take (i + 1)

/-- The peak condition exactly as the loop of generateMockData evaluates
it at iteration i: interior-index guard, then strict comparisons against
entries i-1 and i+1 of the array as it exists at that moment, then the
magnitude test.  Entry i+1 has not been pushed yet, so that read yields
undefined. -/
def mockIsPeak (pd : List ℚ) (i : ℕ) : Bool :=
  decide (0 < i) && decide (i < pd.length - 1) &&
  jsGt ((pushedPrefix pd i).get? i) ((pushedPrefix pd i).get? (i - 1)) &&
  jsGt ((pushedPrefix pd i).get? i) ((pushedPrefix pd i).get? (i + 1)) &&
  jsAbsGt10 ((pushedPrefix pd i).get? i)

/-- The trough condition exactly as the loop of generateMockData evaluates
it at iteration i, symmetric to mockIsPeak with strict less-than. -/
def mockIsTrough (pd : List ℚ) (i : ℕ) : Bool :=
  decide (0 < i) && decide (i < pd.length - 1) &&
  jsLt ((pushedPrefix pd i).get? i) ((pushedPrefix pd i).get? (i - 1)) &&
  jsLt ((pushedPrefix pd i).get? i) ((pushedPrefix pd i).get? (i + 1)) &&
  jsAbsGt10 ((pushedPrefix pd i).get? i)

/-- Peaks pushed by the generation loop of generateMockData, in loop
order, as a function of the pitch-deviation values the loop generates. -/
def mockPeaks (pd : List ℚ) : List ℕ :=
  (List.range pd.length).filter (mockIsPeak pd)

/-- Troughs pushed by the generation loop of generateMockData. -/
def mockTroughs (pd : List ℚ) : List ℕ :=
  (List.range pd.length).filter (mockIsTrough pd)

/-- The extremum scan as the surrounding documentation and spec section
4.2 intend it: the same conditions evaluated over the completed
pitchDeviation array, so the read of entry i+1 is an ordinary in-range
read. -/
def intendedIsPeak (pd : List ℚ) (i : ℕ) : Bool :=
  decide (0 < i) && decide (i < pd.length - 1) &&
  jsGt (pd.get? i) (pd.get? (i - 1)) &&
  jsGt (pd.get? i) (pd.get? (i + 1)) &&
  jsAbsGt10 (pd.get? i)

/-- Trough condition of the intended scan over the completed array. -/
def intendedIsTrough (pd : List ℚ) (i : ℕ) : Bool :=
  decide (0 < i) && decide (i < pd.length - 1) &&
  jsLt (pd.get? i) (pd.get? (i - 1)) &&
  jsLt (pd.get? i) (pd.get? (i + 1)) &&
  jsAbsGt10 (pd.get? i)

/-- Peaks of the intended scan over the completed array. -/
def intendedPeaks (pd : List ℚ) : List ℕ :=
  (List.range pd.length).filter (intendedIsPeak pd)

/-- Troughs of the intended scan over the completed array. -/
def intendedTroughs (pd : List ℚ) : List ℕ :=
  (List.range pd.length).filter (intendedIsTrough pd)

/-- Playback-facing state of App.tsx: the audio element's clock
(audioRef.current.currentTime), the currentTime React state the renderer
reads, the clip duration, and the isPlaying / isDragging flags. -/
structure PlayerState where
  audioTime : ℚ
  currentTime : ℚ
  duration : ℚ
  isPlaying : Bool
  isDragging : Bool
deriving DecidableEq, Repr

/-- seekTo of App.tsx: when a duration is known, clamp the requested time
to [0, duration] and write it to both the audio element and the
currentTime state. -/
def seekTo (s : PlayerState) (time : ℚ) : PlayerState :=
  if 0 < s.duration then
    { s with audioTime := max 0 (min time s.duration),
             currentTime := max 0 (min time s.duration) }
  else s

/-- Events that write playback state: a drag start (sets isDragging and
seeks), a drag move (seeks), a drag release (clears isDragging), and one
requestAnimationFrame tick during which the playing audio element advanced
by delta and the updateTime callback then ran. -/
inductive PlayerEvent
  | dragStart (time : ℚ)
  | dragMove (time : ℚ)
  | dragEnd
  | rafTick (delta : ℚ)

/-- One event step of App.tsx's playback state.  The rafTick case is the
updateTime effect: the audio element advances while playing, and the
callback copies audio time into currentTime only when isPlaying and not
isDragging. -/
def step (s : PlayerState) : PlayerEvent → PlayerState
  | .dragStart time => seekTo { s with isDragging := true } time
  | .dragMove time => seekTo s time
  | .dragEnd => { s with isDragging := false }
  | .rafTick delta =>
      let advanced :=
        if s.isPlaying then { s with audioTime := s.audioTime + delta } else s
      if advanced.isPlaying ∧ ¬ advanced.isDragging = true then
        { advanced with currentTime := advanced.audioTime }
      else advanced

/-- A run of consecutive animation ticks with the given per-tick audio
advances. -/
def runTicks (s : PlayerState) (deltas : List ℚ) : PlayerState :=
  deltas.foldl (fun st d => step st (.rafTick d)) s

/-- Terminal outcome of one analysis run as the caller of analyzeAudio
observes it: either a result object or a structured failure. -/
inductive RunOutcome
  | result (data : AnalysisData)
  | failure (kind message : String)
deriving DecidableEq, Repr

/-- analyzeAudio of App.tsx, as a function of the backend response.  The
try branch stores the decoded response; the catch branch alerts with the
error text and then falls back to generateMockData(), storing that mock
object as the run's result.  The mock object is a parameter because its
values come from transcendental sinusoids; only the control flow matters
here.  No branch constructs a failure outcome. -/
def analyzeAudio (response : Except String AnalysisData)
    (mock : AnalysisData) : RunOutcome :=
  match response with
  | .ok data => .result data
  | .error _ => .result mock

/-- A tiny concrete AnalysisData value used to instantiate closed
statements about analyzeAudio. -/
def sampleMock : AnalysisData :=
  ⟨[0], [0], [0], [0], [], [], 0⟩

/-- Arithmetic mean used by calculateCorrelation: reduce((a,b) => a+b, 0)
divided by the length. -/
def mean (l : List ℚ) : ℚ :=
  l.sum / l.length

/-- Deviations from the mean, the dx respectively dy values of the
accumulation loop of calculateCorrelation. -/
def devs (l : List ℚ) : List ℚ :=
  l.map (fun a => a - mean l)

/-- The numerator accumulator of calculateCorrelation: sum of dx * dy over
the common index range of the two slices. -/
def corrNum (x y : List ℚ) : ℚ :=
  (((devs x).zip (devs y)).map (fun p => p.1 * p.2)).sum

/-- The denomX respectively denomY accumulator of calculateCorrelation:
sum of dx * dx over one slice. -/
def corrDenom (l : List ℚ) : ℚ :=
  ((devs l).map (fun d => d * d)).sum

/-- calculateCorrelation of ScrollingVibratoGraph: return 0 on mismatched
or empty slices, compute the means and the three accumulators, return 0
when either denominator is zero, otherwise the Pearson quotient
numerator / sqrt(denomX * denomY). -/
noncomputable def calculateCorrelation (x y : List ℚ) : ℝ :=
  if x.length ≠ y.length ∨ x.length = 0 then 0
  else if corrDenom x = 0 ∨ corrDenom y = 0 then 0
  else (corrNum x y : ℝ) / Real.sqrt ((corrDenom x : ℝ) * (corrDenom y : ℝ))

/-- A successful jsFindIndex returns an in-range index, the predicate holds
there, and it is the first such index. -/
theorem jsFindIndex_spec (p : ℚ → Bool) (l : List ℚ) (i : ℕ)
    (h : jsFindIndex p l = some i) :
    i < l.length ∧ p (l.getD i 0) = true ∧ ∀ j, j < i → p (l.getD j 0) = false := by
  induction l generalizing i with
  | nil => simp [jsFindIndex] at h
  | cons a l ih =>
    by_cases hp : p a
    · simp [jsFindIndex, hp] at h
      subst h
      refine ⟨by simp, by simpa using hp, ?_⟩
      intro j hj
      omega
    · simp [jsFindIndex, hp] at h
      obtain ⟨k, hk, rfl⟩ := h
      obtain ⟨h1, h2, h3⟩ := ih k hk
      refine ⟨by simpa using h1, by simpa using h2, ?_⟩
      intro j hj
      match j with
      | 0 => simpa using hp
      | j + 1 => simpa using h3 j (by omega)

/-- Reading one past the pushed prefix always yields undefined. -/
theorem pushedPrefix_get_succ (pd : List ℚ) (i : ℕ) :
    (pushedPrefix pd i).get? (i + 1) = none := by
  apply List.get?_eq_none.mpr
  simp [pushedPrefix]

/-- The peak condition of the generation loop is never satisfied: the
comparison against the not-yet-pushed entry i+1 is a comparison against
undefined and therefore false. -/
theorem mockIsPeak_false (pd : List ℚ) (i : ℕ) : mockIsPeak pd i = false := by
  simp only [mockIsPeak, pushedPrefix_get_succ, jsGt]
  cases h : (pushedPrefix pd i).get? i <;> simp

/-- The trough condition of the generation loop is never satisfied. -/
theorem mockIsTrough_false (pd : List ℚ) (i : ℕ) : mockIsTrough pd i = false := by
  simp only [mockIsTrough, pushedPrefix_get_succ, jsLt]
  cases h : (pushedPrefix pd i).get? i <;> simp

/-- generateMockData never records a peak. -/
theorem mockPeaks_eq_nil (pd : List ℚ) : mockPeaks pd = [] := by
  simp [mockPeaks, mockIsPeak_false]

/-- generateMockData never records a trough. -/
theorem mockTroughs_eq_nil (pd : List ℚ) : mockTroughs pd = [] := by
  simp [mockTroughs, mockIsTrough_false]

/-- Expanding the sum of squared linear combinations of a list of pairs
into a quadratic in t. -/
theorem sum_sq_linear (l : List (ℚ × ℚ)) (t : ℚ) :
    (l.map (fun p => (p.1 * t + p.2) * (p.1 * t + p.2))).sum =
      (l.map (fun p => p.1 * p.1)).sum * (t * t) +
        (2 * (l.map (fun p => p.1 * p.2)).sum) * t +
        (l.map (fun p => p.2 * p.2)).sum := by
  induction l with
  | nil => simp
  | cons a l ih =>
    simp only [List.map_cons, List.sum_cons, ih]
    ring

/-- Cauchy-Schwarz for a list of pairs, by nonnegativity of the quadratic
from sum_sq_linear and the sign of its discriminant. -/
theorem list_cauchy_schwarz (l : List (ℚ × ℚ)) :
    ((l.map (fun p => p.1 * p.2)).sum) ^ 2 ≤
      (l.map (fun p => p.1 * p.1)).sum * (l.map (fun p => p.2 * p.2)).sum := by
  have hq : ∀ t : ℚ,
      0 ≤ (l.map (fun p => p.1 * p.1)).sum * (t * t) +
        (2 * (l.map (fun p => p.1 * p.2)).sum) * t +
        (l.map (fun p => p.2 * p.2)).sum := by
    intro t
    rw [← sum_sq_linear]
    apply List.sum_nonneg
    intro v hv
    simp only [List.mem_map] at hv
    obtain ⟨p, _, rfl⟩ := hv
    exact mul_self_nonneg _
  have hd := discrim_le_zero hq
  simp only [discrim] at hd
  nlinarith [hd]

/-- Over equal-length lists, summing the squares of the first components
of the zip is summing the squares of the first list. -/
theorem zip_sum_sq_fst (a b : List ℚ) (h : a.length = b.length) :
    ((a.zip b).map (fun p => p.1 * p.1)).sum = (a.map (fun d => d * d)).sum := by
  induction a generalizing b with
  | nil => simp
  | cons x a ih =>
    cases b with
    | nil => simp at h
    | cons y b =>
      simp only [List.zip_cons_cons, List.map_cons, List.sum_cons]
      rw [ih b (by simpa using h)]

/-- Over equal-length lists, summing the squares of the second components
of the zip is summing the squares of the second list. -/
theorem zip_sum_sq_snd (a b : List ℚ) (h : a.length = b.length) :
    ((a.zip b).map (fun p => p.2 * p.2)).sum = (b.map (fun d => d * d)).sum := by
  induction a generalizing b with
  | nil => cases b with
    | nil => simp
    | cons y b => simp at h
  | cons x a ih =>
    cases b with
    | nil => simp at h
    | cons y b =>
      simp only [List.zip_cons_cons, List.map_cons, List.sum_cons]
      rw [ih b (by simpa using h)]

/-- Zipping a list with itself and multiplying componentwise is squaring. -/
theorem zip_self_sum_sq (l : List ℚ) :
    ((l.zip l).map (fun p => p.1 * p.2)).sum = (l.map (fun d => d * d)).sum := by
  induction l with
  | nil => simp
  | cons x l ih =>
    simp only [List.zip_cons_cons, List.map_cons, List.sum_cons, ih]

/-- The Cauchy-Schwarz bound for the accumulators of calculateCorrelation
on equal-length slices. -/
theorem corrNum_sq_le (x y : List ℚ) (h : x.length = y.length) :
    corrNum x y ^ 2 ≤ corrDenom x * corrDenom y := by
  have hlen : (devs x).length = (devs y).length := by simp [devs, h]
  have := list_cauchy_schwarz ((devs x).zip (devs y))
  rwa [zip_sum_sq_fst _ _ hlen, zip_sum_sq_snd _ _ hlen] at this

/-- A sum of squares is nonnegative. -/
theorem sum_sq_nonneg (l : List ℚ) : 0 ≤ (l.map (fun d => d * d)).sum := by
  apply List.sum_nonneg
  intro v hv
  simp only [List.mem_map] at hv
  obtain ⟨d, _, rfl⟩ := hv
  exact mul_self_nonneg d

/-- Both denominator accumulators of calculateCorrelation are
nonnegative. -/
theorem corrDenom_nonneg (l : List ℚ) : 0 ≤ corrDenom l :=
  sum_sq_nonneg (devs l)

/-- A vanishing sum of squares forces every entry to vanish. -/
theorem eq_zero_of_sum_sq_eq_zero (l : List ℚ)
    (h : (l.map (fun d => d * d)).sum = 0) : ∀ d ∈ l, d = 0 := by
  induction l with
  | nil => simp
  | cons a l ih =>
    simp only [List.map_cons, List.sum_cons] at h
    have h1 : 0 ≤ a * a := mul_self_nonneg a
    have h2 : 0 ≤ (l.map (fun d => d * d)).sum := sum_sq_nonneg l
    have ha : a * a = 0 := by linarith
    have hl : (l.map (fun d => d * d)).sum = 0 := by linarith
    intro d hd
    rcases List.mem_cons.mp hd with rfl | hd
    · exact mul_self_eq_zero.mp ha
    · exact ih hl d hd

/-- The sum of a constant list. -/
theorem sum_of_const (l : List ℚ) (c : ℚ) (h : ∀ a ∈ l, a = c) :
    l.sum = c * l.length := by
  induction l with
  | nil => simp
  | cons a l ih =>
    have ha : a = c := h a (List.mem_cons_self a l)
    have hl := ih (fun b hb => h b (List.mem_cons_of_mem a hb))
    simp only [List.sum_cons, List.length_cons, ha, hl]
    push_cast
    ring

/-- The mean of a nonempty constant list is that constant. -/
theorem mean_of_const (l : List ℚ) (c : ℚ) (hne : l.length ≠ 0)
    (h : ∀ a ∈ l, a = c) : mean l = c := by
  have hn : (l.length : ℚ) ≠ 0 := Nat.cast_ne_zero.mpr hne
  rw [mean, sum_of_const l c h, mul_div_assoc, div_self hn, mul_one]

/-- A nonempty zero-variance (constant) slice has a vanishing denominator
accumulator. -/
theorem corrDenom_eq_zero_of_const (l : List ℚ) (c : ℚ) (hne : l.length ≠ 0)
    (h : ∀ a ∈ l, a = c) : corrDenom l = 0 := by
  rw [corrDenom]
  have : ∀ v ∈ (devs l).map (fun d => d * d), v = 0 := by
    intro v hv
    simp only [devs, List.map_map, List.mem_map, Function.comp] at hv
    obtain ⟨a, ha, rfl⟩ := hv
    rw [h a ha, mean_of_const l c hne h]
    ring
  rw [List.sum_eq_zero this]

/-- Conversely, a vanishing denominator accumulator forces the slice to be
constant (every entry equals the mean). -/
theorem const_of_corrDenom_eq_zero (l : List ℚ) (h : corrDenom l = 0) :
    ∀ a ∈ l, a = mean l := by
  intro a ha
  have hz := eq_zero_of_sum_sq_eq_zero (devs l) h (a - mean l)
    (by simp only [devs, List.mem_map]; exact ⟨a, ha, rfl⟩)
  linarith

/-- On the diagonal the numerator accumulator agrees with the denominator
accumulator. -/
theorem corrNum_self (x : List ℚ) : corrNum x x = corrDenom x := by
  rw [corrNum, corrDenom, zip_self_sum_sq]

/-- C1: the claim's peak rule (strict local maximum with magnitude at least
the threshold, interior indices only) is the documented intent, but the
scan inside generateMockData's loop compares pitchDeviation[i] against the
not-yet-pushed entry i+1, so on the failing input [0, 30, 0] it classifies
nothing at all, while the intended scan over the completed array
classifies index 1 as a peak (and dually for troughs on [0, -30, 0]). -/
theorem extremaScan_dead_at_failing_input :
    mockPeaks [0, 30, 0] = [] ∧ mockTroughs [0, -30, 0] = [] ∧
    intendedPeaks [0, 30, 0] = [1] ∧ intendedTroughs [0, -30, 0] = [1] :=
  ⟨mockPeaks_eq_nil _, mockTroughs_eq_nil _, by decide, by decide⟩

/-- C7: for every pitch-deviation input, the ExtremaSet produced by the
in-repository scan has strictly increasing peak and trough index lists,
the two lists share no index, and no listed index is 0 or N-1. -/
theorem mockExtremaSet_invariants (pd : List ℚ) :
    List.Sorted (· < ·) (mockPeaks pd) ∧
    List.Sorted (· < ·) (mockTroughs pd) ∧
    (mockPeaks pd).inter (mockTroughs pd) = [] ∧
    ((mockPeaks pd ++ mockTroughs pd).all
      (fun i => i != 0 && i != pd.length - 1)) = true := by
  rw [mockPeaks_eq_nil, mockTroughs_eq_nil]
  exact ⟨List.sorted_nil, List.sorted_nil, rfl, rfl⟩

/-- C5 counterexample: called with slices of mismatched length (one of
them empty), calculateCorrelation returns the result 0 instead of failing
fast; the source has no throw at all on this path. -/
theorem calculateCorrelation_mismatched_returns_zero_result :
    calculateCorrelation [1] [] = 0 := by
  norm_num [calculateCorrelation]

/-- C5 amended: calling calculateCorrelation with mismatched-length or
empty slices does not fail fast; the guard returns 0 as the result. -/
theorem calculateCorrelation_no_failfast (x y : List ℚ)
    (h : x.length ≠ y.length ∨ x.length = 0) :
    calculateCorrelation x y = 0 := by
  rw [calculateCorrelation, if_pos h]

/-- C5 witness: the amended statement at concrete mismatched slices. -/
theorem calculateCorrelation_no_failfast_witness :
    calculateCorrelation [1, 2] [3] = 0 :=
  calculateCorrelation_no_failfast [1, 2] [3] (Or.inl (by decide))

/-- C10: calculateCorrelation is total on degenerate inputs: for slices of
mismatched lengths or zero length it returns 0 from the entry guard, so no
contract violation is observable at this interface. -/
theorem calculateCorrelation_total_on_invalid (x y : List ℚ)
    (h : x.length = 0 ∨ y.length = 0 ∨ x.length ≠ y.length) :
    calculateCorrelation x y = 0 := by
  rw [calculateCorrelation]
  rcases Nat.eq_zero_or_pos x.length with hx | hx
  · rw [if_pos (Or.inr hx)]
  · have hne : x.length ≠ y.length := by
      rcases h with h | h | h
      · omega
      · omega
      · exact h
    rw [if_pos (Or.inl hne)]

/-- C10 witness: the totality statement at a concrete empty second slice. -/
theorem calculateCorrelation_total_on_invalid_witness :
    calculateCorrelation [7] [] = 0 :=
  calculateCorrelation_total_on_invalid [7] [] (Or.inr (Or.inl rfl))

/-- C6 counterexample: a failed analysis run still yields a result
outcome - the substitute mock arrays - rather than only a terminal
error, refuting the claim that no substitute result is produced. -/
theorem analyzeAudio_error_still_yields_result :
    analyzeAudio (Except.error "Analysis failed") sampleMock =
      RunOutcome.result sampleMock := rfl

/-- C6 amended: when an analysis run fails, the catch branch of
analyzeAudio falls back to the generated mock data and stores it as the
run's result; a successful run stores the backend response; no run ever
surfaces a structured failure outcome to the caller. -/
theorem analyzeAudio_fallback_behavior :
    (∀ (e : String) (mock : AnalysisData),
      analyzeAudio (Except.error e) mock = RunOutcome.result mock) ∧
    (∀ (d mock : AnalysisData),
      analyzeAudio (Except.ok d) mock = RunOutcome.result d) ∧
    (∀ (resp : Except String AnalysisData) (mock : AnalysisData)
      (k m : String), analyzeAudio resp mock ≠ RunOutcome.failure k m) := by
  refine ⟨fun e mock => rfl, fun d mock => rfl, fun resp mock k m => ?_⟩
  cases resp <;> simp [analyzeAudio]

/-- C3: the visible window is [max(0, currentTime - windowSize),
currentTime]; a resolved startIdx (respectively endIdx) is the first index
whose time is at or past the window start (respectively end); and at
currentTime 12 with windowSize 5 the window is exactly [7, 12]. -/
theorem windowResolution_firstIndex (times : List ℚ) (t w : ℚ) (i j : ℕ)
    (hs : startIdxOf times t w = some i) (he : endIdxOf times t = some j) :
    (i < times.length ∧ (visibleWindow t w).1 ≤ times.getD i 0 ∧
      ∀ k, k < i → times.getD k 0 < (visibleWindow t w).1) ∧
    (j < times.length ∧ t ≤ times.getD j 0 ∧
      ∀ k, k < j → times.getD k 0 < t) ∧
    visibleWindow 12 5 = (7, 12) := by
  obtain ⟨h1, h2, h3⟩ := jsFindIndex_spec _ _ _ hs
  obtain ⟨g1, g2, g3⟩ := jsFindIndex_spec _ _ _ he
  refine ⟨⟨h1, of_decide_eq_true h2, ?_⟩,
    ⟨g1, by simpa [visibleWindow] using of_decide_eq_true g2, ?_⟩,
    by norm_num [visibleWindow]⟩
  · intro k hk
    have hh := h3 k hk
    simp only [decide_eq_false_iff_not, not_le] at hh
    exact hh
  · intro k hk
    have gg := g3 k hk
    simp only [visibleWindow, decide_eq_false_iff_not, not_le] at gg
    exact gg

/-- C3 witness: the window-resolution statement on the series [0, 1, 2, 3]
at currentTime 2 with windowSize 1, where startIdx resolves to 1 and
endIdx to 2. -/
theorem windowResolution_firstIndex_witness :
    (1 < ([0, 1, 2, 3] : List ℚ).length ∧
      (visibleWindow 2 1).1 ≤ ([0, 1, 2, 3] : List ℚ).getD 1 0 ∧
      ∀ k, k < 1 → ([0, 1, 2, 3] : List ℚ).getD k 0 < (visibleWindow 2 1).1) ∧
    (2 < ([0, 1, 2, 3] : List ℚ).length ∧
      (2 : ℚ) ≤ ([0, 1, 2, 3] : List ℚ).getD 2 0 ∧
      ∀ k, k < 2 → ([0, 1, 2, 3] : List ℚ).getD k 0 < 2) ∧
    visibleWindow 12 5 = (7, 12) :=
  windowResolution_firstIndex [0, 1, 2, 3] 2 1 1 2
    (by norm_num [startIdxOf, jsFindIndex, visibleWindow])
    (by norm_num [endIdxOf, jsFindIndex, visibleWindow])

/-- C9: on a render tick where startIdx or endIdx cannot be resolved, the
renderer skips the draw for that tick - it returns no draw data at all,
so nothing is drawn with stale or invalid indices and no exception path
exists. -/
theorem renderTick_skips_unresolvable (data : AnalysisData) (t w : ℚ)
    (h : startIdxOf data.times t w = none ∨ endIdxOf data.times t = none) :
    renderTick data t w = none := by
  rw [renderTick]
  by_cases hlen : data.times.length = 0
  · rw [if_pos hlen]
  · rw [if_neg hlen]
    rcases h with hs | he
    · rw [hs]
    · rw [he]
      cases hstart : startIdxOf data.times t w <;> rfl

/-- C9 witness: with the one-sample series of sampleMock and the window
ending at time 5, endIdx is unresolvable and the tick draws nothing. -/
theorem renderTick_skips_unresolvable_witness :
    renderTick sampleMock 5 1 = none :=
  renderTick_skips_unresolvable sampleMock 5 1
    (Or.inr (by norm_num [sampleMock, endIdxOf, jsFindIndex, visibleWindow]))

/-- While playing, not dragging, and with currentTime already equal to the
audio clock, any run of animation ticks advances both clocks together by
the total elapsed delta. -/
theorem runTicks_advances (deltas : List ℚ) (s : PlayerState)
    (hp : s.isPlaying = true) (hd : s.isDragging = false)
    (hc : s.currentTime = s.audioTime) :
    (runTicks s deltas).currentTime = s.audioTime + deltas.sum ∧
    (runTicks s deltas).audioTime = s.audioTime + deltas.sum := by
  induction deltas generalizing s with
  | nil => simp [runTicks, hc]
  | cons d ds ih =>
    have hstep : step s (.rafTick d) =
        { s with audioTime := s.audioTime + d, currentTime := s.audioTime + d } := by
      simp [step, hp, hd]
    have hfold : runTicks s (d :: ds) = runTicks (step s (.rafTick d)) ds := by
      simp [runTicks]
    rw [hfold, hstep]
    have := ih { s with audioTime := s.audioTime + d, currentTime := s.audioTime + d }
      (by simp [hp]) (by simp [hd]) (by simp)
    simp only [this.1, this.2, List.sum_cons]
    constructor <;> ring

/-- C4: while a drag is active a clock tick never writes currentTime (the
drag is the sole writer), and after dragging to a position t0 inside the
clip and releasing, playback ticks advance currentTime from exactly t0
onward - it equals t0 plus the elapsed time and never falls back below
t0, whatever the pre-drag position was. -/
theorem drag_sole_writer_and_resumes_from_release :
    (∀ (s : PlayerState) (d : ℚ), s.isDragging = true →
      (step s (.rafTick d)).currentTime = s.currentTime) ∧
    (∀ (s : PlayerState) (t0 : ℚ) (deltas : List ℚ),
      s.isPlaying = true → 0 < s.duration → 0 ≤ t0 → t0 ≤ s.duration →
      (∀ d ∈ deltas, 0 ≤ d) →
      (runTicks (step (step s (.dragMove t0)) .dragEnd) deltas).currentTime
          = t0 + deltas.sum ∧
      t0 ≤ (runTicks (step (step s (.dragMove t0)) .dragEnd) deltas).currentTime) := by
  constructor
  · intro s d hdrag
    by_cases hp : s.isPlaying <;> simp [step, hdrag, hp]
  · intro s t0 deltas hp hdur ht0 htd hds
    have hclamp : max 0 (min t0 s.duration) = t0 := by
      rw [min_eq_left htd, max_eq_right ht0]
    have hseek : step s (.dragMove t0) =
        { s with audioTime := t0, currentTime := t0 } := by
      simp [step, seekTo, hdur, hclamp]
    have hrelease : step (step s (.dragMove t0)) .dragEnd =
        { s with audioTime := t0, currentTime := t0, isDragging := false } := by
      rw [hseek]
      simp [step]
    rw [hrelease]
    have hrun := runTicks_advances deltas
      { s with audioTime := t0, currentTime := t0, isDragging := false }
      (by simp [hp]) (by simp) (by simp)
    simp only at hrun
    refine ⟨hrun.1, ?_⟩
    rw [hrun.1]
    have : 0 ≤ deltas.sum := List.sum_nonneg hds
    linarith

/-- C4 witness: from a playing state at position 9 of a 10-second clip,
dragging to 3, releasing, and ticking 1 then 2 seconds leaves currentTime
at 6, never below the release position 3. -/
theorem drag_sole_writer_and_resumes_from_release_witness :
    (step ⟨9, 9, 10, true, true⟩ (.rafTick 1)).currentTime = 9 ∧
    (runTicks (step (step ⟨9, 9, 10, true, false⟩ (.dragMove 3)) .dragEnd)
        [1, 2]).currentTime = 3 + ([1, 2] : List ℚ).sum ∧
    (3 : ℚ) ≤ (runTicks (step (step ⟨9, 9, 10, true, false⟩ (.dragMove 3)) .dragEnd)
        [1, 2]).currentTime := by
  refine ⟨drag_sole_writer_and_resumes_from_release.1 ⟨9, 9, 10, true, true⟩ 1 rfl, ?_, ?_⟩
  · exact (drag_sole_writer_and_resumes_from_release.2 ⟨9, 9, 10, true, false⟩ 3 [1, 2]
      rfl (by norm_num) (by norm_num) (by norm_num) (by norm_num)).1
  · exact (drag_sole_writer_and_resumes_from_release.2 ⟨9, 9, 10, true, false⟩ 3 [1, 2]
      rfl (by norm_num) (by norm_num) (by norm_num) (by norm_num)).2

/-- C2: on equal-length, nonzero-length slices calculateCorrelation lies
in [-1, 1]; and when either slice has zero variance (all entries equal)
the zero-denominator guard returns exactly 0 instead of dividing. -/
theorem calculateCorrelation_in_range (x y : List ℚ)
    (hlen : x.length = y.length) (hne : x.length ≠ 0) :
    (-1 ≤ calculateCorrelation x y ∧ calculateCorrelation x y ≤ 1) ∧
    (((∃ c, ∀ a ∈ x, a = c) ∨ (∃ c, ∀ a ∈ y, a = c)) →
      calculateCorrelation x y = 0) := by
  have hguard : ¬(x.length ≠ y.length ∨ x.length = 0) := by
    push_neg
    exact ⟨hlen, hne⟩
  rw [calculateCorrelation, if_neg hguard]
  by_cases hz : corrDenom x = 0 ∨ corrDenom y = 0
  · rw [if_pos hz]
    exact ⟨⟨by norm_num, by norm_num⟩, fun _ => rfl⟩
  · rw [if_neg hz]
    push_neg at hz
    obtain ⟨hx0, hy0⟩ := hz
    have hxpos : 0 < corrDenom x := lt_of_le_of_ne (corrDenom_nonneg x) (Ne.symm hx0)
    have hypos : 0 < corrDenom y := lt_of_le_of_ne (corrDenom_nonneg y) (Ne.symm hy0)
    have hprod : (0 : ℝ) < (corrDenom x : ℝ) * (corrDenom y : ℝ) := by
      have := mul_pos hxpos hypos
      exact_mod_cast this
    have hsqr : 0 < Real.sqrt ((corrDenom x : ℝ) * (corrDenom y : ℝ)) :=
      Real.sqrt_pos.mpr hprod
    have hsq : Real.sqrt ((corrDenom x : ℝ) * (corrDenom y : ℝ)) ^ 2 =
        (corrDenom x : ℝ) * (corrDenom y : ℝ) := Real.sq_sqrt hprod.le
    have hcs : (corrNum x y : ℝ) ^ 2 ≤ (corrDenom x : ℝ) * (corrDenom y : ℝ) := by
      have := corrNum_sq_le x y hlen
      exact_mod_cast this
    constructor
    · constructor
      · rw [le_div_iff₀ hsqr]
        nlinarith [sq_nonneg ((corrNum x y : ℝ) +
          Real.sqrt ((corrDenom x : ℝ) * (corrDenom y : ℝ)))]
      · rw [div_le_one hsqr]
        nlinarith [sq_nonneg ((corrNum x y : ℝ) -
          Real.sqrt ((corrDenom x : ℝ) * (corrDenom y : ℝ)))]
    · intro hconst
      rcases hconst with ⟨c, hc⟩ | ⟨c, hc⟩
      · exact absurd (corrDenom_eq_zero_of_const x c hne hc) hx0
      · have hney : y.length ≠ 0 := by
          rw [← hlen]
          exact hne
        exact absurd (corrDenom_eq_zero_of_const y c hney hc) hy0

/-- C2 witness: both parts at concrete slices of length two. -/
theorem calculateCorrelation_in_range_witness :
    ((-1 ≤ calculateCorrelation [0, 1] [1, 0] ∧
      calculateCorrelation [0, 1] [1, 0] ≤ 1) ∧
    (((∃ c, ∀ a ∈ ([0, 1] : List ℚ), a = c) ∨
      (∃ c, ∀ a ∈ ([1, 0] : List ℚ), a = c)) →
      calculateCorrelation [0, 1] [1, 0] = 0)) :=
  calculateCorrelation_in_range [0, 1] [1, 0] rfl (by decide)

/-- C8: for a nonempty non-constant slice, the correlation of the slice
with itself is exactly 1; a zero-variance (constant) slice correlates to 0
with any equal-length slice. -/
theorem calculateCorrelation_self_eq_one (x y : List ℚ)
    (hlen : x.length = y.length) (hne : x.length ≠ 0) :
    ((¬ ∃ c, ∀ a ∈ x, a = c) → calculateCorrelation x x = 1) ∧
    ((∃ c, ∀ a ∈ x, a = c) → calculateCorrelation x y = 0) := by
  constructor
  · intro hnc
    have hx0 : corrDenom x ≠ 0 := fun h =>
      hnc ⟨mean x, const_of_corrDenom_eq_zero x h⟩
    have hxpos : 0 < corrDenom x :=
      lt_of_le_of_ne (corrDenom_nonneg x) (Ne.symm hx0)
    have hguard : ¬(x.length ≠ x.length ∨ x.length = 0) := by
      push_neg
      exact ⟨rfl, hne⟩
    rw [calculateCorrelation, if_neg hguard,
      if_neg (by push_neg; exact ⟨hx0, hx0⟩), corrNum_self]
    have hcast : (0 : ℝ) ≤ (corrDenom x : ℝ) := by
      exact_mod_cast hxpos.le
    rw [Real.sqrt_mul_self hcast]
    have hne0 : (corrDenom x : ℝ) ≠ 0 := by
      exact_mod_cast hx0
    exact div_self hne0
  · rintro ⟨c, hc⟩
    have hd := corrDenom_eq_zero_of_const x c hne hc
    rw [calculateCorrelation, if_neg (by push_neg; exact ⟨hlen, hne⟩),
      if_pos (Or.inl hd)]

/-- C8 witness: the self-correlation of the non-constant slice [0, 1] is
1, and the constant slice [3, 3] correlates to 0 with [1, 2]. -/
theorem calculateCorrelation_self_eq_one_witness :
    calculateCorrelation [0, 1] [0, 1] = 1 ∧
    calculateCorrelation [3, 3] [1, 2] = 0 := by
  constructor
  · refine (calculateCorrelation_self_eq_one [0, 1] [2, 5] rfl (by decide)).1 ?_
    rintro ⟨c, hc⟩
    have h0 := hc 0 (by norm_num)
    have h1 := hc 1 (by norm_num)
    rw [← h0] at h1
    norm_num at h1
  · refine (calculateCorrelation_self_eq_one [3, 3] [1, 2] rfl (by decide)).2 ?_
    refine ⟨3, ?_⟩
    intro a ha
    rcases List.mem_cons.mp ha with rfl | ha2
    · rfl
    · simpa using ha2
